import Mathlib

/-!
Verification development for the chatterbox-Audiobook TTS pipeline.

Shallow embedding of the core modules:
* `src/audiobook/tts/audio_processor.py` — crossfaded concatenation and
  loudness normalization of audio buffers (audio samples are modelled as
  exact rationals for the pure-slice code and exact reals for the dB code;
  numpy arrays become `List`s, numpy slice assignment becomes explicit
  bounded writes that fail — `Option.none` — exactly where numpy raises).
* `src/audiobook/tts/text_processor.py` — sentence segmentation and
  chunking (Python strings become `List Char` over the ASCII fragment of
  the `re` character classes used by the source).
* `src/audiobook/tts/engine.py` — chunk-sequential synthesis with retry,
  the synthesis model call is an injected oracle.
* `src/audiobook/api/runpod_client.py` — polling loops of `generate_tts`
  and `clone_voice`, with wall-clock time passed explicitly and the HTTP
  boundary injected as a trace of poll outcomes; the unbounded `while True`
  is embedded with fuel, and termination claims become statements that
  enough fuel always yields an answer.
-/

namespace Audiobook

/-! ### numpy slice primitives

Python resolves a (non-`None`) slice index `i` on a buffer of length `len`
as: add `len` if `i < 0`, then clamp into `[0, len]`.  A numpy slice
assignment `dst[a:b] = src` (and `+=`) requires the resolved slice length
to equal `len(src)`, except that a length-1 `src` broadcasts; any other
mismatch raises `ValueError`, which we model as `none`. -/

/-- Resolve a Python slice bound on a buffer of length `len`. -/
def resolveIdx (len : ℕ) (i : ℤ) : ℕ :=
  if i < 0 then ((len : ℤ) + i).toNat else min i.toNat len

/-- Python slice `l[a:b]` (read). -/
def pySlice (l : List ℚ) (a b : ℤ) : List ℚ :=
  let s := resolveIdx l.length a
  let e := resolveIdx l.length b
  (l.drop s).take (e - s)

/-- numpy slice assignment `dst[a:b] = src`. -/
def npSetSlice (dst : List ℚ) (a b : ℤ) (src : List ℚ) : Option (List ℚ) :=
  let s := resolveIdx dst.length a
  let e := resolveIdx dst.length b
  let sliceLen := e - s
  if sliceLen = src.length then
    some (dst.take s ++ src ++ dst.drop (s + sliceLen))
  else if src.length = 1 then
    some (dst.take s ++ List.replicate sliceLen (src.headD 0) ++ dst.drop (s + sliceLen))
  else
    none

/-- numpy in-place addition `dst[a:b] += src`. -/
def npAddSlice (dst : List ℚ) (a b : ℤ) (src : List ℚ) : Option (List ℚ) :=
  let s := resolveIdx dst.length a
  let e := resolveIdx dst.length b
  let sliceLen := e - s
  if sliceLen = src.length then
    some (dst.take s ++ List.zipWith (· + ·) ((dst.drop s).take sliceLen) src
          ++ dst.drop (s + sliceLen))
  else if src.length = 1 then
    some (dst.take s ++ ((dst.drop s).take sliceLen).map (· + src.headD 0)
          ++ dst.drop (s + sliceLen))
  else
    none

/-- numpy elementwise product of two 1-d arrays (length-1 broadcasts). -/
def npMul (a b : List ℚ) : Option (List ℚ) :=
  if a.length = b.length then some (List.zipWith (· * ·) a b)
  else if a.length = 1 then some (b.map (fun x => a.headD 0 * x))
  else if b.length = 1 then some (a.map (fun x => x * b.headD 0))
  else none

/-- Model of `np.linspace a b n`: `n` evenly spaced values from `a` to `b` inclusive
(`n = 1` yields `[a]`, `n = 0` yields `[]`). -/
def linspace (a b : ℚ) (n : ℕ) : List ℚ :=
  if n = 1 then [a]
  else List.map (fun i : ℕ => a + (b - a) * i / ((n : ℚ) - 1)) (List.range n)

/-! ### `AudioProcessor.combine_audio_chunks`
(`src/audiobook/tts/audio_processor.py` lines 124-170)

The source converts `crossfade_duration` to a sample count with
`int(crossfade_duration * self.sample_rate)`; we take that nonnegative
sample count as the parameter.  The source allocates
`np.zeros(total_samples)` — negative `total_samples` raises, hence `none`.
Note the source's `audio_chunks[0][:-crossfade_samples]` is the *empty*
slice when `crossfade_samples = 0` (Python `[:-0] == [:0]`), and the
`fade_out` curve built in the loop is never applied to anything. -/

/-- One iteration of the loop over `audio_chunks[1:-1]` together with the
running write position (source lines 150-160). -/
def middleLoop (k : ℕ) : List (List ℚ) → List ℚ → ℤ → Option (List ℚ × ℤ)
  | [], combined, pos => some (combined, pos)
  | chunk :: more, combined, pos =>
      -- the source also builds `fade_out = np.linspace(1, 0, k)` here and never uses it
      (npMul (pySlice chunk 0 (k : ℤ)) (linspace 0 1 k)).bind fun src =>
      (npAddSlice combined pos (pos + (k : ℤ)) src).bind fun combined1 =>
      (npSetSlice combined1 (pos + (k : ℤ)) (pos + (chunk.length : ℤ) - (k : ℤ))
        (pySlice chunk (k : ℤ) (-(k : ℤ)))).bind fun combined2 =>
      middleLoop k more combined2 (pos + (chunk.length : ℤ) - (k : ℤ))

/-- Model of `combine_audio_chunks`, parametrized by the crossfade sample count
`k = int(crossfade_duration * sample_rate)`. -/
def combine_audio_chunks (audio_chunks : List (List ℚ)) (crossfade_samples : ℕ) :
    Option (List ℚ) :=
  match audio_chunks with
  | [] => some []
  | [c] => some c
  | c0 :: c1 :: rest =>
      let k := crossfade_samples
      let chunks := c0 :: c1 :: rest
      let total : ℤ := ((chunks.map List.length).sum : ℤ) - (k : ℤ) * ((chunks.length : ℤ) - 1)
      if total < 0 then none    -- np.zeros raises on a negative size
      else
        -- first chunk (no fade in): combined[0 : len(c0)-k] = c0[:-k]
        (npSetSlice (List.replicate total.toNat (0 : ℚ)) 0
          ((0 : ℤ) + (c0.length : ℤ) - (k : ℤ)) (pySlice c0 0 (-(k : ℤ)))).bind fun combined0 =>
        -- middle chunks: audio_chunks[1:-1]
        (middleLoop k ((c1 :: rest).dropLast) combined0
          ((0 : ℤ) + (c0.length : ℤ) - (k : ℤ))).bind fun st =>
        -- last chunk (no fade out)
        (npMul (pySlice ((c1 :: rest).getLastD []) 0 (k : ℤ)) (linspace 0 1 k)).bind fun src =>
        (npAddSlice st.1 st.2 (st.2 + (k : ℤ)) src).bind fun combined1 =>
        (npSetSlice combined1 (st.2 + (k : ℤ)) (combined1.length : ℤ)
          (pySlice ((c1 :: rest).getLastD []) (k : ℤ) (((c1 :: rest).getLastD []).length : ℤ))).bind fun combined2 =>
        some combined2

/-! ### `AudioProcessor.analyze_audio_level` and `normalize_audio`
(`src/audiobook/tts/audio_processor.py` lines 83-122)

The float computations (mean, sqrt, log10, the `10**(g/20)` gain) are
modelled over the exact reals.  `np.max` of an empty array raises
`ValueError`; the source computes the peak unconditionally, so an empty
buffer fails for either method, hence `none`. -/

/-- Root-mean-square level `np.sqrt(np.mean(audio_data**2))`. -/
noncomputable def rms (x : List ℝ) : ℝ :=
  Real.sqrt ((x.map (fun s => s ^ 2)).sum / x.length)

/-- Peak level `np.max(np.abs(audio_data))` of a nonempty buffer (the `0`
seed of the fold is exact because every `|s|` is nonnegative). -/
noncomputable def peakAbs (x : List ℝ) : ℝ :=
  (x.map (fun s => |s|)).foldr max 0

/-- The dictionary returned by `analyze_audio_level`. -/
structure AudioLevels where
  rms : ℝ
  rms_db : ℝ
  peak : ℝ
  peak_db : ℝ

/-- Model of `analyze_audio_level`: dB levels are `20·log10` of the linear level
when it is positive and the sentinel `-100` otherwise. -/
noncomputable def analyze_audio_level (x : List ℝ) : Option AudioLevels :=
  if x = [] then none   -- np.max of the empty array raises ValueError
  else
    some ⟨rms x,
      if rms x > 0 then 20 * Real.logb 10 (rms x) else -100,
      peakAbs x,
      if peakAbs x > 0 then 20 * Real.logb 10 (peakAbs x) else -100⟩

/-- Model of `np.clip s (-1.0) 1.0`. -/
noncomputable def clip1 (s : ℝ) : ℝ := max (-1) (min s 1)

/-- Model of `normalize_audio(audio_data, target_db, method)`: compute the current
level for the requested method, apply the linear gain
`10 ** ((target_db − current_db) / 20)` and clip to `[-1, 1]`. -/
noncomputable def normalize_audio (x : List ℝ) (target_db : ℝ) (method : String) :
    Option (List ℝ) :=
  match analyze_audio_level x with
  | none => none
  | some levels =>
      let current_db := if method = "rms" then levels.rms_db else levels.peak_db
      let gain_db := target_db - current_db
      let gain_linear : ℝ := (10 : ℝ) ^ (gain_db / 20)
      let normalized := x.map (fun s => s * gain_linear)
      some (normalized.map clip1)

/-! ### `TextProcessor` (`src/audiobook/tts/text_processor.py` lines 20-166)

Python strings are `List Char`.  The `re` character classes are modelled
on their ASCII fragment: `\s` is space/tab/LF/CR/FF/VT and `\w` is
letters, digits and underscore. -/

/-- ASCII fragment of the regex class `\s` (also used by `str.strip` and
`str.split`). -/
def isWS (c : Char) : Bool :=
  c == ' ' || c == '\t' || c == '\n' || c == '\r' || c == '\x0c' || c == '\x0b'

/-- ASCII fragment of the regex class `\w`. -/
def isWordChar (c : Char) : Bool := c.isAlpha || c.isDigit || c == '_'

/-- The class `[.!?]` opening `sentence_end_pattern`. -/
def sentenceEndChar (c : Char) : Bool := c == '.' || c == '!' || c == '?'

/-- The trailing class `[\s"')\]]` of `sentence_end_pattern`. -/
def trailChar (c : Char) : Bool :=
  isWS c || c == '"' || c == Char.ofNat 39 || c == ')' || c == ']'

/-- Collapse each maximal whitespace run to one space
(`whitespace_pattern.sub(' ', text)`). -/
def squeezeWS : List Char → List Char
  | [] => []
  | [c] => if isWS c then [' '] else [c]
  | c1 :: c2 :: rest =>
    if isWS c1 then
      if isWS c2 then squeezeWS (c2 :: rest)
      else ' ' :: squeezeWS (c2 :: rest)
    else c1 :: squeezeWS (c2 :: rest)

/-- Python `str.strip` (left part). -/
def lstrip (s : List Char) : List Char := s.dropWhile isWS

/-- Python `str.strip` (right part). -/
def rstrip (s : List Char) : List Char := (s.reverse.dropWhile isWS).reverse

/-- Python `str.strip`. -/
def strip (s : List Char) : List Char := rstrip (lstrip s)

/-- Model of `normalize_whitespace`: `\s+ → ' '` then `strip`. -/
def normalize_whitespace (s : List Char) : List Char := strip (squeezeWS s)

/-- Helper for `count_words`: the flag records whether the previous
character was a word character, so each maximal `\w`-run is counted once
(non-overlapping matches of `\b\w+\b`). -/
def countWordsAux : Bool → List Char → ℕ
  | _, [] => 0
  | prev, c :: rest =>
    if isWordChar c then (if prev then 0 else 1) + countWordsAux true rest
    else countWordsAux false rest

/-- Model of `count_words`: `len(word_pattern.findall(text))`. -/
def count_words (s : List Char) : ℕ := countWordsAux false s

/-- Model of `is_sentence_end`: `sentence_end_pattern.search` succeeds exactly when
some position starts a match, i.e. when the text contains `.`, `!` or
`?`. -/
def is_sentence_end (s : List Char) : Bool := s.any sentenceEndChar

/-- The optional `(\\n)?` at the end of `sentence_end_pattern`: a literal
backslash followed by `n`. -/
def matchBackslashN : List Char → Bool
  | '\\' :: 'n' :: _ => true
  | _ => false

/-- Model of `sentence_end_pattern.finditer`: scan left to right; a match starts at
a `[.!?]` character, greedily takes the whole `[.!?]+` run, then the
`[\s"')\]]*` run, then an optional literal `\n` pair; scanning resumes at
the match end.  Returns the list of `(start, end)` spans.  The recursion
is driven by a fuel argument kept structural for the kernel; every step
consumes at least one character (a match is never empty since it opens
with `[.!?]+`), so fuel `s.length` is exact. -/
def findMatchesAux : ℕ → List Char → ℕ → List (ℕ × ℕ)
  | 0, _, _ => []
  | _, [], _ => []
  | fuel + 1, c :: rest, p =>
    if sentenceEndChar c then
      let l1 := ((c :: rest).takeWhile sentenceEndChar).length
      let after1 := (c :: rest).drop l1
      let l2 := (after1.takeWhile trailChar).length
      let after2 := after1.drop l2
      let l3 := if matchBackslashN after2 then 2 else 0
      (p, p + l1 + l2 + l3) :: findMatchesAux fuel (after2.drop l3) (p + l1 + l2 + l3)
    else
      findMatchesAux fuel rest (p + 1)

/-- The spans of `sentence_end_pattern.finditer`. -/
def findMatches (s : List Char) (p : ℕ) : List (ℕ × ℕ) :=
  findMatchesAux s.length s p

/-- Spans from consecutive match ends, plus the remainder when the last
match does not reach the end of the text
(`find_sentence_boundaries` lines 66-80). -/
def boundariesFromEnds (start : ℕ) (ends : List ℕ) (len : ℕ) : List (ℕ × ℕ) :=
  match ends with
  | [] => if start < len then [(start, len)] else []
  | e :: rest => (start, e) :: boundariesFromEnds e rest len

/-- Model of `find_sentence_boundaries`. -/
def find_sentence_boundaries (t : List Char) : List (ℕ × ℕ) :=
  boundariesFromEnds 0 ((findMatches t 0).map (fun m => m.2)) t.length

/-- Python slice `text[a:b]` on nonnegative bounds. -/
def sliceStr (t : List Char) (a b : ℕ) : List Char := (t.drop a).take (b - a)

/-- One-pass worker for Python `str.split()`; `cur` is the current token
reversed. -/
def splitWSAux : List Char → List Char → List (List Char)
  | [], cur => if cur = [] then [] else [cur.reverse]
  | c :: rest, cur =>
    if isWS c then
      if cur = [] then splitWSAux rest []
      else cur.reverse :: splitWSAux rest []
    else splitWSAux rest (c :: cur)

/-- Python `str.split()`: the maximal non-whitespace runs. -/
def splitWS (s : List Char) : List (List Char) := splitWSAux s []

/-- Python `' '.join`. -/
def joinSp : List (List Char) → List Char
  | [] => []
  | [w] => w
  | w :: ws => w ++ ' ' :: joinSp ws

/-- The `TextChunk` dataclass (its `metadata` field is never set by
`chunk_text` and is omitted). -/
structure TextChunk where
  text : List Char
  start_index : ℕ
  end_index : ℕ
  chunk_number : ℕ
  is_complete_sentence : Bool
  deriving DecidableEq

/-- Mutable locals of the sentence-accumulation loop of `chunk_text`. -/
structure ChunkAcc where
  chunks : List TextChunk
  chunk_number : ℕ
  current_chunk : List (List Char)
  current_word_count : ℕ
  chunk_start : ℕ

/-- Mutable locals of the force-split inner loop (`chunk_text` lines
116-138). -/
structure ForceAcc where
  chunks : List TextChunk
  chunk_number : ℕ
  temp_chunk : List (List Char)
  temp_word_count : ℕ
  word_start : ℕ

/-- The force-split loop over the words of an overlong sentence.  Note the
source resets `temp_chunk` *before* recomputing `word_start`, so
`word_start` becomes `start + len(' '.join([])) = start`. -/
def forceLoop (max_words : ℤ) (start : ℕ) : ForceAcc → List (List Char) → ForceAcc
  | acc, [] => acc
  | acc, w :: ws =>
    let acc :=
      if (acc.temp_word_count : ℤ) + 1 > max_words then
        let ctext := joinSp acc.temp_chunk
        let closed : TextChunk :=
          { text := ctext, start_index := acc.word_start,
            end_index := start + ctext.length, chunk_number := acc.chunk_number,
            is_complete_sentence := false }
        { chunks := acc.chunks ++ [closed],
          chunk_number := acc.chunk_number + 1,
          temp_chunk := [],
          temp_word_count := 0,
          word_start := start + (joinSp ([] : List (List Char))).length }
      else acc
    forceLoop max_words start
      { acc with
        temp_chunk := acc.temp_chunk ++ [w],
        temp_word_count := acc.temp_word_count + 1 } ws

/-- Model of the `if temp_chunk:` flush after the force-split loop (lines 140-150): flush the
remaining words; the remainder inherits sentence-end status. -/
def finishForce (acc : ForceAcc) (endIdx : ℕ) : List TextChunk × ℕ :=
  if acc.temp_chunk ≠ [] then
    let ctext := joinSp acc.temp_chunk
    let remainder : TextChunk :=
      { text := ctext, start_index := acc.word_start,
        end_index := endIdx, chunk_number := acc.chunk_number,
        is_complete_sentence := is_sentence_end ctext }
    (acc.chunks ++ [remainder], acc.chunk_number + 1)
  else (acc.chunks, acc.chunk_number)

/-- One iteration of the main loop of `chunk_text` over a sentence
boundary `(start, end)`. -/
def processBoundary (t : List Char) (max_words : ℤ) (st : ChunkAcc) (b : ℕ × ℕ) :
    ChunkAcc :=
  let sentence := strip (sliceStr t b.1 b.2)
  let swc := count_words sentence
  -- close the accumulated chunk if adding this sentence would exceed the limit
  let st :=
    if (st.current_word_count : ℤ) + (swc : ℤ) > max_words ∧ st.current_chunk ≠ [] then
      let ctext := joinSp st.current_chunk
      let closed : TextChunk :=
        { text := ctext, start_index := st.chunk_start,
          end_index := b.1, chunk_number := st.chunk_number,
          is_complete_sentence := true }
      { chunks := st.chunks ++ [closed],
        chunk_number := st.chunk_number + 1,
        current_chunk := [],
        current_word_count := 0,
        chunk_start := b.1 }
    else st
  if (swc : ℤ) > max_words then
    -- a single overlong sentence is force-split at word boundaries
    let words := splitWS sentence
    let facc := forceLoop max_words b.1
      { chunks := st.chunks, chunk_number := st.chunk_number, temp_chunk := [],
        temp_word_count := 0, word_start := b.1 } words
    let fin := finishForce facc b.2
    { chunks := fin.1, chunk_number := fin.2, current_chunk := st.current_chunk,
      current_word_count := st.current_word_count, chunk_start := st.chunk_start }
  else
    { st with
      current_chunk := st.current_chunk ++ [sentence],
      current_word_count := st.current_word_count + swc }

/-- Model of `chunk_text(text, max_words)`.  The source applies no clamping to
`max_words`; it is a plain Python `int`, modelled as `ℤ`. -/
def chunk_text (text : List Char) (max_words : ℤ) : List TextChunk :=
  let t := normalize_whitespace text
  let boundaries := find_sentence_boundaries t
  let st := boundaries.foldl (processBoundary t max_words)
    { chunks := [], chunk_number := 0, current_chunk := [], current_word_count := 0,
      chunk_start := 0 }
  -- add any remaining text as the final chunk
  if st.current_chunk ≠ [] then
    let ctext := joinSp st.current_chunk
    let finalChunk : TextChunk :=
      { text := ctext, start_index := st.chunk_start,
        end_index := t.length, chunk_number := st.chunk_number,
        is_complete_sentence := is_sentence_end ctext }
    st.chunks ++ [finalChunk]
  else st.chunks

/-! ### `TTSEngine` (`src/audiobook/tts/engine.py` lines 17-73)

The model call `self.model.generate(...)` is injected as an oracle
`gen device text` that yields either audio samples or the message of the
`RuntimeError` it raises; `ChatterboxTTS.from_pretrained` (the CPU-fallback
reload) is assumed to succeed.  `self.device` is threaded explicitly. -/

/-- List-prefix test used for substring search. -/
def startsWithL : List Char → List Char → Bool
  | [], _ => true
  | _ :: _, [] => false
  | a :: as, b :: bs => a == b && startsWithL as bs

/-- Python `needle in hay` on strings. -/
def containsSub (needle : List Char) : List Char → Bool
  | [] => needle.isEmpty
  | c :: rest => startsWithL needle (c :: rest) || containsSub needle rest

/-- Python `str.lower()` (ASCII). -/
def lowerStr (s : List Char) : List Char := s.map Char.toLower

/-- The `for attempt in range(max_retries)` loop of `generate_with_retry`.
`left` counts the remaining iterations (`left = max_retries - attempt`),
kept structural for the kernel.  When the loop falls through
(`max_retries = 0`) Python returns `None`, modelled as `.ok none`. -/
def retryLoop (gen : String → String → Except String (List ℚ)) (text : String)
    (max_retries : ℕ) : ℕ → ℕ → String → Except String (Option (List ℚ × String))
  | 0, _, _ => .ok none
  | left + 1, attempt, device =>
    -- on retries a CUDA engine reloads the model on CPU
    let device := if attempt > 0 && device == "cuda" then "cpu" else device
    match gen device text with
    | .ok wav => .ok (some (wav, device))
    | .error e =>
      if attempt = max_retries - 1 then .error e
      else if (containsSub "CUDA".toList e.toList
            || containsSub "out of memory".toList (lowerStr e.toList))
          && device == "cuda" then
        retryLoop gen text max_retries left (attempt + 1) device
      else .error e

/-- Model of `generate_with_retry(text, ..., max_retries)` starting on `device`. -/
def generate_with_retry (gen : String → String → Except String (List ℚ))
    (device text : String) (max_retries : ℕ) :
    Except String (Option (List ℚ × String)) :=
  retryLoop gen text max_retries max_retries 0 device

/-- Model of `process_text_chunks` (lines 52-73): synthesize each chunk in order
with `generate_with_retry` (default `max_retries = 3`); an exception
propagates and aborts the loop.  Unpacking a `None` return raises
`TypeError`. -/
def process_text_chunks (gen : String → String → Except String (List ℚ)) :
    String → List String → Except String (List (List ℚ))
  | _, [] => .ok []
  | device, chunk :: rest =>
    match generate_with_retry gen device chunk 3 with
    | .error e => .error e
    | .ok none => .error "TypeError: cannot unpack non-iterable NoneType object"
    | .ok (some (wav, device1)) =>
      match process_text_chunks gen device1 rest with
      | .error e => .error e
      | .ok wavs => .ok (wav :: wavs)

/-! ### `RunPodClient` polling loops (`src/audiobook/api/runpod_client.py`)

The HTTP boundary is injected as a trace: `polls i` is the outcome of the
i-th `GET /status/{id}` and `durs i` the wall-clock seconds it consumed;
`elapsed` is `time.time() - start_time` at the top of the iteration.  The
unbounded `while True` loops carry fuel, and `none` means only that the
fuel ran out. -/

/-- The fields of a parsed status body that the client reads. -/
structure StatusData where
  err : Option String
  status : Option String
  output_audio : Option String
  deriving DecidableEq

/-- One poll attempt: a `requests.Timeout`, another `RequestException`
(which includes a non-2xx response via `raise_for_status`), or a body. -/
inductive PollResult where
  | timeout (msg : String)
  | reqError (msg : String)
  | ok (d : StatusData)
  deriving DecidableEq

/-- The `RunPodResult` dataclass. -/
structure RunPodResult where
  is_success : Bool
  message : String
  deriving DecidableEq

/-- Constructor `RunPodResult.error`. -/
def RunPodResult.error (message : String) : RunPodResult := ⟨false, message⟩

/-- Constructor `RunPodResult.success`. -/
def RunPodResult.success (message : String) : RunPodResult := ⟨true, message⟩

/-- The polling loop of `generate_tts` (lines 335-372):
`max_wait_time = 300`, `poll_interval = 2`, per-request timeout 10 s.  A
`requests.Timeout` here is caught by the generic `RequestException`
handler (`Timeout` is its subclass), so a single timeout returns an
error.  `decode` models `base64.b64decode` of `output["audio_data"]`. -/
def ttsPollLoop (decode : String → Except String (List ℕ))
    (polls : ℕ → PollResult) (durs : ℕ → ℚ) :
    ℕ → ℚ → ℕ → Option (Option (List ℕ) × String)
  | 0, _, _ => none
  | fuel + 1, elapsed, i =>
    if elapsed > 300 then some (none, "TTS generation timed out")
    else
      match polls i with
      | .timeout msg => some (none, "Error checking status: " ++ msg)
      | .reqError msg => some (none, "Error checking status: " ++ msg)
      | .ok d =>
        match d.err with
        | some e => some (none, e)
        | none =>
          if d.status = some "COMPLETED" then
            match d.output_audio with
            | some payload =>
              match decode payload with
              | .ok bytes => some (some bytes, "")
              | .error e => some (none, "Failed to decode audio data: " ++ e)
            | none => some (none, "No audio data in response")
          else if d.status = some "FAILED" then
            some (none, "TTS generation failed: " ++ (d.err.getD "Unknown error"))
          else if d.status = some "CANCELLED" then
            some (none, "TTS generation was cancelled")
          else
            ttsPollLoop decode polls durs fuel (elapsed + durs i + 2) (i + 1)

/-- The polling loop of `clone_voice` (lines 140-193):
`max_wait_time = 120`, `poll_interval = 5`,
`max_consecutive_timeouts = 3`.  Here `requests.Timeout` has its own
handler with the consecutive-timeout counter, reset on every successful
poll. -/
def clonePollLoop (polls : ℕ → PollResult) (durs : ℕ → ℚ) :
    ℕ → ℚ → ℕ → ℕ → Option RunPodResult
  | 0, _, _, _ => none
  | fuel + 1, elapsed, consecutive_timeouts, i =>
    if elapsed > 120 then
      some (RunPodResult.error "RunPod endpoint not responding. Please check if your endpoint is running in the RunPod console.")
    else
      match polls i with
      | .ok d =>
        -- consecutive_timeouts = 0 on a successful request
        match d.err with
        | some e => some (RunPodResult.error e)
        | none =>
          if d.status = some "COMPLETED" then
            some (RunPodResult.success "Voice cloned successfully")
          else if d.status = some "FAILED" then
            some (RunPodResult.error
              ("Voice cloning failed: " ++ (d.err.getD "Unknown error")))
          else if d.status = some "CANCELLED" then
            some (RunPodResult.error "Voice cloning was cancelled")
          else
            clonePollLoop polls durs fuel (elapsed + durs i + 5) 0 (i + 1)
      | .timeout _ =>
        if consecutive_timeouts + 1 ≥ 3 then
          some (RunPodResult.error "RunPod endpoint is not responding. Please check if the endpoint is running in your RunPod console.")
        else
          clonePollLoop polls durs fuel (elapsed + durs i + 5)
            (consecutive_timeouts + 1) (i + 1)
      | .reqError msg =>
        if containsSub "404".toList msg.toList then
          some (RunPodResult.error "RunPod endpoint not found. Please check your endpoint ID in the RunPod console.")
        else
          some (RunPodResult.error ("Error checking job status: " ++ msg))

/-! ### Invariant predicates used by the theorems -/

/-- The produced chunks are numbered consecutively from zero and the
running counter is the next number. -/
def NumberedFrom (cs : List TextChunk) (n : ℕ) : Prop :=
  cs.map TextChunk.chunk_number = List.range cs.length ∧ n = cs.length

/-- A chunk satisfies the (amended) word bound: its regex word count is
within `max_words`, or it holds at most `max_words` whitespace tokens. -/
def GoodChunk (mw : ℤ) (c : TextChunk) : Prop :=
  (count_words c.text : ℤ) ≤ mw ∨ ((splitWS c.text).length : ℤ) ≤ mw

/-- Invariant of the sentence-accumulation state. -/
def GoodAcc (mw : ℤ) (st : ChunkAcc) : Prop :=
  (∀ c ∈ st.chunks, GoodChunk mw c) ∧
  st.current_word_count = (st.current_chunk.map count_words).sum ∧
  (st.current_word_count : ℤ) ≤ mw

/-- Invariant of the force-split state: the counter tracks the token
count, stays within `max_words`, and the buffered tokens are nonempty and
whitespace-free. -/
def GoodForce (mw : ℤ) (acc : ForceAcc) : Prop :=
  (∀ c ∈ acc.chunks, GoodChunk mw c) ∧
  acc.temp_word_count = acc.temp_chunk.length ∧
  (acc.temp_word_count : ℤ) ≤ mw ∧
  (∀ w ∈ acc.temp_chunk, w ≠ [] ∧ ∀ ch ∈ w, isWS ch = false)

/-! ### Facts about the slice primitives -/

lemma resolveIdx_le (len : ℕ) (i : ℤ) : resolveIdx len i ≤ len := by
  unfold resolveIdx
  split
  · omega
  · exact min_le_right _ _

lemma resolveIdx_eq (len : ℕ) (i : ℤ) (h0 : 0 ≤ i) (h : i ≤ (len : ℤ)) :
    resolveIdx len i = i.toNat := by
  unfold resolveIdx
  rw [if_neg (by omega), min_eq_left (by omega)]

lemma resolveIdx_natCast (len n : ℕ) (h : n ≤ len) : resolveIdx len (n : ℤ) = n := by
  have := resolveIdx_eq len n (by omega) (by omega)
  omega

lemma resolveIdx_neg (len k : ℕ) (hk : 1 ≤ k) : resolveIdx len (-(k : ℤ)) = len - k := by
  unfold resolveIdx
  rw [if_pos (by omega)]
  omega

lemma length_linspace (a b : ℚ) (n : ℕ) : (linspace a b n).length = n := by
  unfold linspace
  split
  · simp [*]
  · rw [List.length_map, List.length_range]

lemma length_pySlice_front (l : List ℚ) (k : ℕ) (h : k ≤ l.length) :
    (pySlice l 0 (k : ℤ)).length = k := by
  have h0 : resolveIdx l.length 0 = 0 := by
    simpa using resolveIdx_natCast l.length 0 (Nat.zero_le _)
  simp [pySlice, h0, resolveIdx_natCast _ _ h]
  omega

lemma length_pySlice_neg (l : List ℚ) (k : ℕ) (hk : 1 ≤ k) (h : k ≤ l.length) :
    (pySlice l 0 (-(k : ℤ))).length = l.length - k := by
  have h0 : resolveIdx l.length 0 = 0 := by
    simpa using resolveIdx_natCast l.length 0 (Nat.zero_le _)
  simp [pySlice, h0, resolveIdx_neg _ _ hk]

lemma length_pySlice_mid (l : List ℚ) (k : ℕ) (hk : 1 ≤ k) (h : k ≤ l.length) :
    (pySlice l (k : ℤ) (-(k : ℤ))).length = l.length - 2 * k := by
  simp [pySlice, resolveIdx_natCast _ _ h, resolveIdx_neg _ _ hk]
  omega

lemma length_pySlice_tail (l : List ℚ) (k : ℕ) (h : k ≤ l.length) :
    (pySlice l (k : ℤ) ((l.length : ℕ) : ℤ)).length = l.length - k := by
  simp [pySlice, resolveIdx_natCast _ _ h, resolveIdx_natCast _ _ (le_refl l.length)]

lemma npMul_of_eq (a b : List ℚ) (h : a.length = b.length) :
    npMul a b = some (List.zipWith (· * ·) a b) := by
  unfold npMul
  rw [if_pos h]

lemma npSetSlice_some (dst src : List ℚ) (a b : ℤ)
    (h : resolveIdx dst.length b - resolveIdx dst.length a = src.length) :
    ∃ out, npSetSlice dst a b src = some out ∧ out.length = dst.length := by
  have hlea := resolveIdx_le dst.length a
  have hleb := resolveIdx_le dst.length b
  refine ⟨dst.take (resolveIdx dst.length a) ++ src ++
      dst.drop (resolveIdx dst.length a +
        (resolveIdx dst.length b - resolveIdx dst.length a)), ?_, ?_⟩
  · simp only [npSetSlice]
    rw [if_pos h]
  · simp only [List.length_append, List.length_take, List.length_drop]
    omega

lemma npAddSlice_some (dst src : List ℚ) (a b : ℤ)
    (h : resolveIdx dst.length b - resolveIdx dst.length a = src.length) :
    ∃ out, npAddSlice dst a b src = some out ∧ out.length = dst.length := by
  have hlea := resolveIdx_le dst.length a
  have hleb := resolveIdx_le dst.length b
  refine ⟨dst.take (resolveIdx dst.length a) ++
      List.zipWith (· + ·) ((dst.drop (resolveIdx dst.length a)).take
        (resolveIdx dst.length b - resolveIdx dst.length a)) src ++
      dst.drop (resolveIdx dst.length a +
        (resolveIdx dst.length b - resolveIdx dst.length a)), ?_, ?_⟩
  · simp only [npAddSlice]
    rw [if_pos h]
  · simp only [List.length_append, List.length_take, List.length_drop,
      List.length_zipWith]
    omega

lemma sum_fades_nonneg (k : ℕ) (mid : List (List ℚ)) (h : ∀ c ∈ mid, k ≤ c.length) :
    0 ≤ ((mid.map (fun c => (c.length : ℤ) - (k : ℤ))).sum) := by
  induction mid with
  | nil => simp
  | cons c cs ih =>
    simp only [List.map_cons, List.sum_cons]
    have h1 : k ≤ c.length := h c (by simp)
    have h2 := ih (fun d hd => h d (by simp [hd]))
    omega

lemma mul_le_sum_lengths (k : ℕ) (l : List (List ℚ)) (h : ∀ c ∈ l, k ≤ c.length) :
    l.length * k ≤ (l.map List.length).sum := by
  induction l with
  | nil => simp
  | cons c cs ih =>
    simp only [List.map_cons, List.sum_cons, List.length_cons]
    have h1 : k ≤ c.length := h c (by simp)
    have h2 := ih (fun d hd => h d (by simp [hd]))
    rw [Nat.add_mul, Nat.one_mul]
    omega

/-- The loop over `audio_chunks[1:-1]` succeeds, preserves the buffer length
and advances the write position by `Σ (len(c) - k)` whenever every middle
chunk is at least `k` samples long and at least `k` samples of room remain. -/
lemma middleLoop_spec (k : ℕ) (hk : 1 ≤ k) :
    ∀ (mid : List (List ℚ)) (combined : List ℚ) (pos : ℤ),
      (∀ c ∈ mid, k ≤ c.length) → 0 ≤ pos →
      pos + ((mid.map (fun c => (c.length : ℤ) - (k : ℤ))).sum) + k ≤ (combined.length : ℤ) →
      ∃ out, middleLoop k mid combined pos
          = some (out, pos + ((mid.map (fun c => (c.length : ℤ) - (k : ℤ))).sum))
        ∧ out.length = combined.length := by
  intro mid
  induction mid with
  | nil =>
    intro combined pos _ _ _
    exact ⟨combined, by simp [middleLoop], rfl⟩
  | cons chunk more ih =>
    intro combined pos hmid hpos hbud
    have hck : k ≤ chunk.length := hmid chunk (by simp)
    have hmore : ∀ c ∈ more, k ≤ c.length := fun d hd => hmid d (by simp [hd])
    have hsum := sum_fades_nonneg k more hmore
    simp only [List.map_cons, List.sum_cons] at hbud
    -- the faded head of the chunk
    have hmul := npMul_of_eq (pySlice chunk 0 (k : ℤ)) (linspace 0 1 k)
      (by rw [length_pySlice_front _ _ hck, length_linspace])
    set src := List.zipWith (· * ·) (pySlice chunk 0 (k : ℤ)) (linspace 0 1 k) with hsrc
    have hsrclen : src.length = k := by
      rw [hsrc, List.length_zipWith, length_pySlice_front _ _ hck, length_linspace]
      omega
    -- add it into the overlap window
    obtain ⟨out1, hadd, hlen1⟩ := npAddSlice_some combined src pos (pos + (k : ℤ)) (by
      rw [resolveIdx_eq _ _ hpos (by omega), resolveIdx_eq _ _ (by omega) (by omega),
        hsrclen]
      omega)
    -- write the untouched middle of the chunk
    obtain ⟨out2, hset, hlen2⟩ := npSetSlice_some out1
      (pySlice chunk (k : ℤ) (-(k : ℤ))) (pos + (k : ℤ))
      (pos + (chunk.length : ℤ) - (k : ℤ)) (by
        rw [hlen1, resolveIdx_eq _ _ (by omega) (by omega),
          resolveIdx_eq _ _ (by omega) (by omega),
          length_pySlice_mid _ _ hk hck]
        omega)
    obtain ⟨out3, hrec, hlen3⟩ := ih out2 (pos + (chunk.length : ℤ) - (k : ℤ))
      hmore (by omega) (by rw [hlen2, hlen1]; omega)
    refine ⟨out3, ?_, by rw [hlen3, hlen2, hlen1]⟩
    rw [middleLoop, hmul, Option.some_bind, hadd, Option.some_bind, hset,
      Option.some_bind, hrec]
    congr 2
    simp only [List.map_cons, List.sum_cons]
    ring

/-- Pointwise fade-sum bookkeeping. -/
lemma sum_fades_eq (k : ℕ) (mid : List (List ℚ)) :
    ((mid.map (fun c => (c.length : ℤ) - (k : ℤ))).sum)
      = ((mid.map List.length).sum : ℤ) - (mid.length : ℤ) * (k : ℤ) := by
  induction mid with
  | nil => simp
  | cons c cs ih =>
    simp only [List.map_cons, List.sum_cons, List.length_cons]
    push_cast
    push_cast at ih
    rw [ih]
    ring

/-- Shared success-and-length specification of `combine_audio_chunks`:
with a crossfade of `1 ≤ k` samples not exceeding any segment's length and
at least two segments, the combination succeeds and its length is
`Σ len − k·(n−1)`. -/
lemma combine_spec (chunks : List (List ℚ)) (k : ℕ) (hk : 1 ≤ k)
    (hlen : ∀ c ∈ chunks, k ≤ c.length) (h2 : 2 ≤ chunks.length) :
    (combine_audio_chunks chunks k).map List.length
      = some ((chunks.map List.length).sum - k * (chunks.length - 1)) := by
  match chunks, h2 with
  | c0 :: c1 :: rest, _ =>
  -- split the tail into its middle part and its last element
  rcases List.eq_nil_or_concat (c1 :: rest) with hnil | ⟨mid, lastC, hsplit⟩
  · exact absurd hnil (by simp)
  have happ : c1 :: rest = mid ++ [lastC] := by rw [hsplit, List.concat_eq_append]
  have hdrop : (c1 :: rest).dropLast = mid := by rw [happ, List.dropLast_concat]
  have hlast : (c1 :: rest).getLastD [] = lastC := by rw [happ, List.getLastD_concat]
  have hc0 : k ≤ c0.length := hlen c0 (by simp)
  have hlastC : k ≤ lastC.length := by
    refine hlen lastC ?_
    simp [happ]
  have hmid : ∀ c ∈ mid, k ≤ c.length := by
    intro c hc
    refine hlen c ?_
    simp [happ, hc]
  have hsum : ((c0 :: c1 :: rest).map List.length).sum
      = c0.length + ((mid.map List.length).sum + lastC.length) := by
    rw [happ]
    simp [List.sum_append]
  have hcount : (c0 :: c1 :: rest).length = mid.length + 2 := by
    rw [happ]
    simp
  have hmidsum := mul_le_sum_lengths k mid hmid
  have hfades := sum_fades_nonneg k mid hmid
  set M : ℕ := (mid.map List.length).sum with hMdef
  set m : ℕ := mid.length with hmdef
  set F : ℤ := (mid.map (fun c => (c.length : ℤ) - (k : ℤ))).sum with hFdef
  have hcast : ((m * k : ℕ) : ℤ) = (m : ℤ) * (k : ℤ) := by push_cast; ring
  have hfadesum : F = (M : ℤ) - (m : ℤ) * (k : ℤ) := sum_fades_eq k mid
  set total : ℤ := (((c0 :: c1 :: rest).map List.length).sum : ℤ)
    - (k : ℤ) * (((c0 :: c1 :: rest).length : ℤ) - 1) with htotal
  have htotZ : total = (c0.length : ℤ) + (M : ℤ) + (lastC.length : ℤ)
      - ((m : ℤ) * (k : ℤ) + (k : ℤ)) := by
    rw [htotal, hsum, hcount]
    push_cast
    ring
  have htot0 : 0 ≤ total := by omega
  have hTnat : ((total.toNat : ℤ)) = total := Int.toNat_of_nonneg htot0
  -- the first write succeeds
  obtain ⟨out0, hset0, hlen0⟩ := npSetSlice_some (List.replicate total.toNat (0 : ℚ))
    (pySlice c0 0 (-(k : ℤ))) 0 ((0 : ℤ) + (c0.length : ℤ) - (k : ℤ)) (by
      rw [List.length_replicate, length_pySlice_neg _ _ hk hc0,
        resolveIdx_eq _ _ (by omega) (by omega),
        resolveIdx_eq _ _ (by omega) (by omega)]
      omega)
  -- the middle loop succeeds
  obtain ⟨out1, hloop, hlen1⟩ := middleLoop_spec k hk mid out0
    ((0 : ℤ) + (c0.length : ℤ) - (k : ℤ)) hmid (by omega) (by
      rw [hlen0, List.length_replicate, ← hFdef]
      omega)
  rw [← hFdef] at hloop
  set pos1 : ℤ := (0 : ℤ) + (c0.length : ℤ) - (k : ℤ) + F with hpos1
  have hpos1nn : 0 ≤ pos1 := by omega
  have hroom : pos1 + (lastC.length : ℤ) = total := by
    rw [hpos1, hfadesum]
    omega
  -- the faded head of the last chunk
  have hmul := npMul_of_eq (pySlice lastC 0 (k : ℤ)) (linspace 0 1 k)
    (by rw [length_pySlice_front _ _ hlastC, length_linspace])
  set src := List.zipWith (· * ·) (pySlice lastC 0 (k : ℤ)) (linspace 0 1 k) with hsrc
  have hsrclen : src.length = k := by
    rw [hsrc, List.length_zipWith, length_pySlice_front _ _ hlastC, length_linspace]
    omega
  obtain ⟨out2, hadd, hlen2⟩ := npAddSlice_some out1 src pos1 (pos1 + (k : ℤ)) (by
    rw [hlen1, hlen0, List.length_replicate, hsrclen,
      resolveIdx_eq _ _ (by omega) (by omega),
      resolveIdx_eq _ _ hpos1nn (by omega)]
    omega)
  -- the unfaded tail of the last chunk
  obtain ⟨out3, hset3, hlen3⟩ := npSetSlice_some out2
    (pySlice lastC (k : ℤ) ((lastC.length : ℕ) : ℤ)) (pos1 + (k : ℤ))
    ((out2.length : ℕ) : ℤ) (by
      rw [length_pySlice_tail _ _ hlastC,
        resolveIdx_natCast _ _ (le_refl out2.length),
        resolveIdx_eq _ _ (by omega) (by
          rw [hlen2, hlen1, hlen0, List.length_replicate]
          omega)]
      rw [hlen2, hlen1, hlen0, List.length_replicate]
      omega)
  have hfinlen : out3.length = total.toNat := by
    rw [hlen3, hlen2, hlen1, hlen0, List.length_replicate]
  -- assemble the computation
  rw [combine_audio_chunks]
  rw [if_neg (by rw [← htotal]; omega)]
  rw [hdrop, hlast, hset0, Option.some_bind, hloop, Option.some_bind, hmul,
    Option.some_bind]
  rw [show ((out1, pos1).1 : List ℚ) = out1 from rfl,
    show ((out1, pos1).2 : ℤ) = pos1 from rfl]
  simp only [hadd, Option.some_bind, hset3, Option.map_some']
  rw [hfinlen]
  congr 1
  rw [hcount, hsum]
  have h1 : m + 2 - 1 = m + 1 := by omega
  rw [h1]
  have hkm : k * (m + 1) = m * k + k := by
    rw [Nat.mul_add, Nat.mul_one, Nat.mul_comm]
  rw [hkm]
  omega

/-! ### Claims C1, C5, C6 about `combine_audio_chunks` -/

/-- C1: the claimed crossfade is not what the code computes.  At
`audio_chunks = [[1,1,1],[1,1,1]]` with `crossfade_samples = 2` the spec's
overlap — the fading-out tail of the earlier segment summed with the
fading-in head of the later one — would give `[1,1,1,1]` (both fades sum
to 1 on equal amplitudes); the code instead drops the earlier segment's
trailing samples (its `fade_out` curve is computed but never applied), so
the overlap holds only the faded-in head and the output is `[1,0,1,1]`. -/
theorem combine_drops_fadeout_tail :
    combine_audio_chunks [[1, 1, 1], [1, 1, 1]] 2 = some [1, 0, 1, 1] ∧
    some [(1 : ℚ), 0, 1, 1] ≠ some [(1 : ℚ), 1, 1, 1] := by
  constructor
  · simp [combine_audio_chunks, middleLoop, npSetSlice, npAddSlice, npMul, pySlice,
      resolveIdx, linspace, List.range_succ]
    norm_num
  · norm_num

/-- C5: `combine_audio_chunks` performs no clamping of the crossfade
sample count.  With two one-sample segments and `crossfade_samples = 5`
the total output length `1 + 1 − 5·1` is negative and `np.zeros` raises,
so the combination is not total. -/
theorem combine_not_total_without_clamp :
    combine_audio_chunks [[1], [1]] 5 = none := by
  norm_num [combine_audio_chunks]

/-- C5 (amended): when the crossfade sample count `k` satisfies
`1 ≤ k` and does not exceed any segment's length, `combine_audio_chunks`
is defined (no negative-length buffer and no mismatched slice write). -/
theorem combine_isSome_of_le_lengths (chunks : List (List ℚ)) (k : ℕ)
    (hk : 1 ≤ k) (hlen : ∀ c ∈ chunks, k ≤ c.length) :
    (combine_audio_chunks chunks k).isSome = true := by
  match chunks with
  | [] => simp [combine_audio_chunks]
  | [c] => simp [combine_audio_chunks]
  | c0 :: c1 :: rest =>
    have h := combine_spec (c0 :: c1 :: rest) k hk hlen (by simp)
    rcases Option.map_eq_some'.mp h with ⟨out, hout, _⟩
    rw [hout]
    rfl

/-- C5 witness: a concrete instance of `combine_isSome_of_le_lengths`. -/
theorem combine_isSome_witness :
    (combine_audio_chunks [[1], [2]] 1).isSome = true :=
  combine_isSome_of_le_lengths [[1], [2]] 1 (le_refl 1) (by
    intro c hc
    simp only [List.mem_cons, List.not_mem_nil, or_false] at hc
    rcases hc with rfl | rfl <;> norm_num)

/-- C6: with `crossfade_samples = 0` (every segment longer than the
crossfade) the claimed output length would be `1 + 1 − 0 = 2`, but the
code fails: Python's `chunk[:-0]` is the empty slice, so the first write
assigns an empty array into a length-1 slice and numpy raises. -/
theorem combine_zero_crossfade_fails :
    combine_audio_chunks [[1], [1]] 0 = none := by
  simp [combine_audio_chunks, middleLoop, npSetSlice, npAddSlice, npMul, pySlice,
    resolveIdx, linspace, List.range_succ]

/-- C6 (amended): for `1 ≤ k` and at least two segments all longer than
`k` samples, the output length is `Σ len − k·(n−1)`. -/
theorem combine_length_formula (chunks : List (List ℚ)) (k : ℕ)
    (hk : 1 ≤ k) (h2 : 2 ≤ chunks.length) (hlen : ∀ c ∈ chunks, k < c.length) :
    (combine_audio_chunks chunks k).map List.length
      = some ((chunks.map List.length).sum - k * (chunks.length - 1)) :=
  combine_spec chunks k hk (fun c hc => le_of_lt (hlen c hc)) h2

/-- C6 witness: two segments of lengths 2 and 2 with a one-sample
crossfade combine to 2 + 2 − 1 = 3 samples. -/
theorem combine_length_formula_witness :
    (combine_audio_chunks [[(1 : ℚ), 2], [3, 4]] 1).map List.length = some 3 := by
  have h := combine_length_formula [[(1 : ℚ), 2], [3, 4]] 1 (le_refl 1) (by simp) (by
    intro c hc
    simp only [List.mem_cons, List.not_mem_nil, or_false] at hc
    rcases hc with rfl | rfl <;> norm_num)
  simpa using h

/-! ### Claims C9 and C10 about `normalize_audio` -/

/-- The fold behind `np.max` of a buffer of zeros is zero. -/
lemma foldr_max_zero (l : List ℝ) (h : ∀ y ∈ l, y = 0) : l.foldr max 0 = 0 := by
  induction l with
  | nil => rfl
  | cons a t ih =>
    rw [List.foldr_cons, h a (by simp), ih (fun y hy => h y (by simp [hy]))]
    simp

/-- All-zero buffers pass through `normalize_audio` unchanged: the gain is
finite (the silent level is the sentinel `-100`, not `-∞`) and scaling and
clipping fix `0`. -/
lemma normalize_all_zero (x : List ℝ) (t : ℝ) (method : String)
    (hne : x ≠ []) (hz : ∀ s ∈ x, s = 0) :
    normalize_audio x t method = some x := by
  have hrms : rms x = 0 := by
    unfold rms
    have hsum : (x.map (fun s => s ^ 2)).sum = 0 := by
      apply List.sum_eq_zero
      intro y hy
      rcases List.mem_map.mp hy with ⟨s, hs, rfl⟩
      rw [hz s hs]
      ring
    rw [hsum, zero_div, Real.sqrt_zero]
  have hpeak : peakAbs x = 0 := by
    unfold peakAbs
    have hall : ∀ y ∈ x.map (fun s => |s|), y = 0 := by
      intro y hy
      rcases List.mem_map.mp hy with ⟨s, hs, rfl⟩
      rw [hz s hs, abs_zero]
    exact foldr_max_zero _ hall
  have hclip : ∀ g : ℝ, ∀ s ∈ x, clip1 (s * g) = s := by
    intro g s hs
    rw [hz s hs, zero_mul]
    unfold clip1
    rw [min_eq_left (by norm_num), max_eq_right (by norm_num)]
  have hmap : ∀ g : ℝ, List.map (clip1 ∘ fun s => s * g) x = x := by
    intro g
    have hpt : ∀ s ∈ x, (clip1 ∘ fun s => s * g) s = id s := by
      intro s hs
      simp only [Function.comp_apply, id_eq]
      exact hclip g s hs
    rw [List.map_congr_left hpt, List.map_id]
  unfold normalize_audio analyze_audio_level
  rw [if_neg hne]
  simp only [hrms, hpeak, lt_irrefl, if_neg (lt_irrefl (0 : ℝ)), List.map_map]
  rw [hmap]

/-- C9: the claim fails on an empty buffer — an empty buffer is all-zero,
but `analyze_audio_level` computes `np.max` of an empty array, which
raises, so `normalize_audio` does not return the buffer unchanged. -/
theorem normalize_empty_buffer_fails :
    normalize_audio ([] : List ℝ) (-18) "rms" = none := by
  rfl

/-- C9 (amended): for every nonempty all-zero buffer, every target level
and every method, `normalize_audio` returns the buffer unchanged (in the
exact-real model no NaN or infinity can arise; the computed gain is finite
and has no effect on zero samples). -/
theorem normalize_silent_unchanged (x : List ℝ) (t : ℝ) (method : String)
    (hne : x ≠ []) (hz : ∀ s ∈ x, s = 0) :
    normalize_audio x t method = some x :=
  normalize_all_zero x t method hne hz

/-- C9 witness: a two-sample silent buffer with the peak method. -/
theorem normalize_silent_witness :
    normalize_audio [(0 : ℝ), 0] (-18) "peak" = some [0, 0] :=
  normalize_silent_unchanged [0, 0] (-18) "peak" (by simp) (by
    intro s hs
    simp at hs
    exact hs)

/-- C10: every sample of a buffer returned by `normalize_audio` lies in
`[-1, 1]` — the gain-scaled signal is clipped before being returned. -/
theorem normalize_output_clipped (x : List ℝ) (t : ℝ) (method : String)
    (out : List ℝ) (h : normalize_audio x t method = some out) :
    ∀ s ∈ out, -1 ≤ s ∧ s ≤ 1 := by
  unfold normalize_audio at h
  cases hx : analyze_audio_level x with
  | none =>
    rw [hx] at h
    simp at h
  | some levels =>
    rw [hx] at h
    simp only [Option.some_inj] at h
    intro s hs
    rw [← h] at hs
    rcases List.mem_map.mp hs with ⟨y, _, rfl⟩
    unfold clip1
    constructor
    · exact le_max_left _ _
    · exact max_le (by norm_num) (min_le_right _ _)

/-- C10 witness: the sample of a concrete run of `normalize_audio` lies
within `[-1, 1]`. -/
theorem normalize_output_clipped_witness :
    (-1 : ℝ) ≤ 0 ∧ (0 : ℝ) ≤ 1 :=
  normalize_output_clipped [0] (-18) "rms" [0]
    (normalize_all_zero [0] (-18) "rms" (by simp) (by simp)) 0 (by simp)

/-! ### Claim C7 about `chunk_text` -/

lemma numberedFrom_append (cs : List TextChunk) (n : ℕ) (c : TextChunk)
    (h : NumberedFrom cs n) (hc : c.chunk_number = n) :
    NumberedFrom (cs ++ [c]) (n + 1) := by
  obtain ⟨h1, h2⟩ := h
  constructor
  · rw [List.map_append, h1, List.length_append]
    simp [List.range_succ, hc, h2]
  · simp [h2]

lemma forceLoop_numbered (mw : ℤ) (start : ℕ) :
    ∀ (words : List (List Char)) (acc : ForceAcc),
      NumberedFrom acc.chunks acc.chunk_number →
      NumberedFrom (forceLoop mw start acc words).chunks
        (forceLoop mw start acc words).chunk_number := by
  intro words
  induction words with
  | nil => intro acc h; exact h
  | cons w ws ih =>
    intro acc h
    rw [forceLoop]
    apply ih
    dsimp only
    split
    · exact numberedFrom_append _ _ _ h rfl
    · exact h

lemma finishForce_numbered (acc : ForceAcc) (e : ℕ)
    (h : NumberedFrom acc.chunks acc.chunk_number) :
    NumberedFrom (finishForce acc e).1 (finishForce acc e).2 := by
  rw [finishForce]
  split
  · exact numberedFrom_append _ _ _ h rfl
  · exact h

lemma processBoundary_numbered (t : List Char) (mw : ℤ) (st : ChunkAcc) (b : ℕ × ℕ)
    (h : NumberedFrom st.chunks st.chunk_number) :
    NumberedFrom (processBoundary t mw st b).chunks
      (processBoundary t mw st b).chunk_number := by
  rw [processBoundary]
  dsimp only
  split
  · apply finishForce_numbered
    apply forceLoop_numbered
    dsimp only
    split
    · exact numberedFrom_append _ _ _ h rfl
    · exact h
  · dsimp only
    split
    · exact numberedFrom_append _ _ _ h rfl
    · exact h

lemma foldl_numbered (t : List Char) (mw : ℤ) :
    ∀ (bs : List (ℕ × ℕ)) (st : ChunkAcc),
      NumberedFrom st.chunks st.chunk_number →
      NumberedFrom (bs.foldl (processBoundary t mw) st).chunks
        (bs.foldl (processBoundary t mw) st).chunk_number := by
  intro bs
  induction bs with
  | nil => intro st h; exact h
  | cons b rest ih =>
    intro st h
    rw [List.foldl_cons]
    exact ih _ (processBoundary_numbered t mw st b h)

/-- C7 (amended): `chunk_text` terminates and returns well-formed chunks
for every `max_words` — the `chunk_number` of the i-th chunk is `i`. -/
theorem chunk_text_numbering (text : List Char) (max_words : ℤ) :
    (chunk_text text max_words).map TextChunk.chunk_number
      = List.range (chunk_text text max_words).length := by
  rw [chunk_text]
  have h0 : NumberedFrom ([] : List TextChunk) 0 := by
    constructor <;> rfl
  have hst := foldl_numbered (normalize_whitespace text) max_words
    (find_sentence_boundaries (normalize_whitespace text))
    { chunks := [], chunk_number := 0, current_chunk := [], current_word_count := 0,
      chunk_start := 0 } h0
  dsimp only
  split
  · exact (numberedFrom_append _ _ _ hst rfl).1
  · exact hst.1

/-- C7: `chunk_text` performs no clamping of `max_words`.  At
`max_words = 0` the force-split loop closes an empty accumulator, emitting
a degenerate empty-text chunk, and the result differs from
`max_words = 1` — so a value below 1 is not treated as 1. -/
theorem chunk_text_no_clamp :
    chunk_text "hi.".toList 0 =
      [⟨[], 0, 0, 0, false⟩, ⟨['h', 'i', '.'], 0, 3, 1, true⟩] ∧
    chunk_text "hi.".toList 1 = [⟨['h', 'i', '.'], 0, 3, 0, true⟩] := by
  decide

/-! ### Claim C3 about `chunk_text` and `count_words` -/

lemma countWordsAux_append (a b : List Char) (sep : Char)
    (hsep : isWordChar sep = false) :
    ∀ fl : Bool, countWordsAux fl (a ++ sep :: b)
      = countWordsAux fl a + countWordsAux false b := by
  induction a with
  | nil =>
    intro fl
    simp [countWordsAux, hsep]
  | cons c a' ih =>
    intro fl
    simp only [List.cons_append, countWordsAux, List.append_eq]
    cases hc : isWordChar c
    · simp only [hc, Bool.false_eq_true, if_false]
      exact ih false
    · simp only [hc, if_true]
      rw [ih true]
      omega

/-- Lemma: `count_words` distributes over `' '.join` (a space is not a word
character, so word runs never merge across the separator). -/
lemma count_words_joinSp (l : List (List Char)) :
    count_words (joinSp l) = (l.map count_words).sum := by
  induction l with
  | nil => rfl
  | cons w ws ih =>
    cases ws with
    | nil => simp [joinSp]
    | cons w2 ws2 =>
      rw [show joinSp (w :: w2 :: ws2) = w ++ ' ' :: joinSp (w2 :: ws2) from rfl]
      unfold count_words
      rw [countWordsAux_append _ _ _ (by rfl) false]
      rw [show countWordsAux false (joinSp (w2 :: ws2))
          = count_words (joinSp (w2 :: ws2)) from rfl, ih]
      simp only [List.map_cons, List.sum_cons]
      rfl

/-- Every token emitted by `splitWSAux` is nonempty and whitespace-free
(provided the pending token is). -/
lemma splitWSAux_tokens :
    ∀ (s cur : List Char), (∀ c ∈ cur, isWS c = false) →
      ∀ w ∈ splitWSAux s cur, w ≠ [] ∧ ∀ c ∈ w, isWS c = false := by
  intro s
  induction s with
  | nil =>
    intro cur hcur w hw
    rw [splitWSAux] at hw
    by_cases h : cur = []
    · rw [if_pos h] at hw
      cases hw
    · rw [if_neg h] at hw
      rw [List.mem_singleton] at hw
      subst hw
      constructor
      · simpa using h
      · intro c hc
        exact hcur c (List.mem_reverse.mp hc)
  | cons c rest ih =>
    intro cur hcur w hw
    rw [splitWSAux] at hw
    by_cases hc : isWS c
    · rw [if_pos hc] at hw
      by_cases h : cur = []
      · rw [if_pos h] at hw
        exact ih [] (by simp) w hw
      · rw [if_neg h] at hw
        rcases List.mem_cons.mp hw with hw | hw
        · subst hw
          constructor
          · simpa using h
          · intro d hd
            exact hcur d (List.mem_reverse.mp hd)
        · exact ih [] (by simp) w hw
    · rw [if_neg hc] at hw
      refine ih (c :: cur) ?_ w hw
      intro d hd
      rcases List.mem_cons.mp hd with rfl | hd
      · simpa using hc
      · exact hcur d hd

lemma splitWS_tokens (s : List Char) :
    ∀ w ∈ splitWS s, w ≠ [] ∧ ∀ c ∈ w, isWS c = false :=
  splitWSAux_tokens s [] (by simp)

/-- A whitespace-free run with nothing after it comes back out of
`splitWSAux` as a single token. -/
lemma splitWSAux_end (t : List Char) (ht : ∀ c ∈ t, isWS c = false) :
    ∀ cur : List Char, (cur ≠ [] ∨ t ≠ []) →
      splitWSAux t cur = [cur.reverse ++ t] := by
  induction t with
  | nil =>
    intro cur hne
    rcases hne with h | h
    · simp [splitWSAux, h]
    · exact absurd rfl h
  | cons c t' ih =>
    intro cur _
    have hc : isWS c = false := ht c (by simp)
    rw [splitWSAux, if_neg (by simp [hc])]
    rw [ih (fun d hd => ht d (by simp [hd])) (c :: cur) (Or.inl (by simp))]
    simp

/-- A whitespace-free run followed by a space comes back out of
`splitWSAux` as one token, and splitting resumes after the space. -/
lemma splitWSAux_token (t : List Char) (ht : ∀ c ∈ t, isWS c = false) :
    ∀ (cur r : List Char), (cur ≠ [] ∨ t ≠ []) →
      splitWSAux (t ++ ' ' :: r) cur = (cur.reverse ++ t) :: splitWSAux r [] := by
  induction t with
  | nil =>
    intro cur r hne
    rcases hne with h | h
    · rw [List.nil_append, splitWSAux, if_pos (by rfl), if_neg h]
      simp
    · exact absurd rfl h
  | cons c t' ih =>
    intro cur r _
    have hc : isWS c = false := ht c (by simp)
    rw [List.cons_append, splitWSAux, if_neg (by simp [hc])]
    rw [ih (fun d hd => ht d (by simp [hd])) (c :: cur) r (Or.inl (by simp))]
    simp

/-- Splitting the space-join of nonempty whitespace-free tokens returns
exactly those tokens. -/
lemma splitWS_joinSp (l : List (List Char))
    (h : ∀ w ∈ l, w ≠ [] ∧ ∀ c ∈ w, isWS c = false) :
    splitWS (joinSp l) = l := by
  induction l with
  | nil => rfl
  | cons w ws ih =>
    cases ws with
    | nil =>
      obtain ⟨hne, hfree⟩ := h w (by simp)
      rw [show joinSp [w] = w from rfl]
      unfold splitWS
      rw [splitWSAux_end w hfree [] (Or.inr hne)]
      simp
    | cons w2 ws2 =>
      obtain ⟨hne, hfree⟩ := h w (by simp)
      rw [show joinSp (w :: w2 :: ws2) = w ++ ' ' :: joinSp (w2 :: ws2) from rfl]
      unfold splitWS
      rw [splitWSAux_token w hfree [] _ (Or.inr hne)]
      rw [show splitWSAux (joinSp (w2 :: ws2)) [] = splitWS (joinSp (w2 :: ws2)) from rfl]
      rw [ih (fun v hv => h v (by simp [hv]))]
      simp

/-- The force-split loop keeps the token-count bound: a chunk is closed
before the buffer would exceed `max_words` tokens. -/
lemma forceLoop_good (mw : ℤ) (start : ℕ) (hmw : 1 ≤ mw) :
    ∀ (words : List (List Char)) (acc : ForceAcc),
      GoodForce mw acc →
      (∀ w ∈ words, w ≠ [] ∧ ∀ ch ∈ w, isWS ch = false) →
      GoodForce mw (forceLoop mw start acc words) := by
  intro words
  induction words with
  | nil => intro acc h _; exact h
  | cons w ws ih =>
    intro acc h hw
    obtain ⟨hchunks, hcnt, hbound, htoks⟩ := h
    rw [forceLoop]
    dsimp only
    split
    · -- the buffer is flushed as a chunk of `temp_word_count` tokens
      apply ih
      · refine ⟨?_, ?_, ?_, ?_⟩
        · intro c hc
          rcases List.mem_append.mp hc with hc | hc
          · exact hchunks c hc
          · rw [List.mem_singleton] at hc
            subst hc
            right
            dsimp only [GoodChunk]
            rw [splitWS_joinSp acc.temp_chunk htoks, ← hcnt]
            omega
        · simp
        · simpa using hmw
        · intro v hv
          simp only [List.nil_append, List.mem_singleton] at hv
          rw [hv]
          exact hw w (by simp)
      · intro v hv
        exact hw v (by simp [hv])
    · rename_i hle
      apply ih
      · refine ⟨hchunks, ?_, ?_, ?_⟩
        · simp [hcnt]
        · push_neg at hle
          simp only [Nat.cast_add, Nat.cast_one]
          omega
        · intro v hv
          rcases List.mem_append.mp hv with hv | hv
          · exact htoks v hv
          · rw [List.mem_singleton] at hv
            rw [hv]
            exact hw w (by simp)
      · intro v hv
        exact hw v (by simp [hv])

/-- Flushing the remaining buffered tokens keeps every produced chunk
within the bound. -/
lemma finishForce_good (mw : ℤ) (acc : ForceAcc) (e : ℕ)
    (h : GoodForce mw acc) :
    ∀ c ∈ (finishForce acc e).1, GoodChunk mw c := by
  obtain ⟨hchunks, hcnt, hbound, htoks⟩ := h
  rw [finishForce]
  split
  · intro c hc
    dsimp only at hc
    rcases List.mem_append.mp hc with hc | hc
    · exact hchunks c hc
    · rw [List.mem_singleton] at hc
      subst hc
      right
      dsimp only [GoodChunk]
      rw [splitWS_joinSp acc.temp_chunk htoks, ← hcnt]
      omega
  · exact hchunks

/-- One step of the main loop of `chunk_text` preserves the invariant. -/
lemma processBoundary_good (t : List Char) (mw : ℤ) (st : ChunkAcc) (b : ℕ × ℕ)
    (hmw : 1 ≤ mw) (h : GoodAcc mw st) :
    GoodAcc mw (processBoundary t mw st b) := by
  obtain ⟨hchunks, hcnt, hbound⟩ := h
  rw [processBoundary]
  dsimp only
  -- the state after the possible close keeps the invariant, with a chunk
  -- count of zero when a close happened
  split
  · -- force-split branch: `count_words sentence > max_words`
    rename_i hswc
    constructor
    · apply finishForce_good
      apply forceLoop_good mw b.1 hmw
      · refine ⟨?_, by simp, by show ((0 : ℕ) : ℤ) ≤ mw; omega, by simp⟩
        split
        · rename_i hclose
          intro c hc
          dsimp only at hc
          rcases List.mem_append.mp hc with hc | hc
          · exact hchunks c hc
          · rw [List.mem_singleton] at hc
            subst hc
            left
            dsimp only [GoodChunk]
            rw [count_words_joinSp, ← hcnt]
            omega
        · exact hchunks
      · exact splitWS_tokens _
    · constructor
      · split
        · simp
        · exact hcnt
      · split
        · simp
          omega
        · exact hbound
  · -- accumulate branch: `count_words sentence ≤ max_words`
    rename_i hswc
    push_neg at hswc
    split
    · rename_i hclose
      refine ⟨?_, ?_, ?_⟩
      · intro c hc
        dsimp only at hc
        rcases List.mem_append.mp hc with hc | hc
        · exact hchunks c hc
        · rw [List.mem_singleton] at hc
          subst hc
          left
          dsimp only [GoodChunk]
          rw [count_words_joinSp, ← hcnt]
          omega
      · simp
      · simpa using hswc
    · rename_i hnoclose
      push_neg at hnoclose
      refine ⟨hchunks, ?_, ?_⟩
      · simp [hcnt, List.sum_append]
      · simp only [Nat.cast_add]
        by_cases hcc : st.current_chunk = []
        · have hz : st.current_word_count = 0 := by
            rw [hcnt, hcc]
            rfl
          rw [hz]
          simpa using hswc
        · have hno : ¬ ((st.current_word_count : ℤ)
              + (count_words (strip (sliceStr t b.1 b.2)) : ℤ) > mw) :=
            fun hgt => hcc (hnoclose hgt)
          omega

lemma foldl_good (t : List Char) (mw : ℤ) (hmw : 1 ≤ mw) :
    ∀ (bs : List (ℕ × ℕ)) (st : ChunkAcc),
      GoodAcc mw st →
      GoodAcc mw (bs.foldl (processBoundary t mw) st) := by
  intro bs
  induction bs with
  | nil => intro st h; exact h
  | cons b rest ih =>
    intro st h
    rw [List.foldl_cons]
    exact ih _ (processBoundary_good t mw st b hmw h)

/-- C3 (amended): for `max_words ≥ 1`, every chunk either has
`count_words ≤ max_words` (always the case for chunks built by
accumulating whole sentences) or was force-split and holds at most
`max_words` whitespace-delimited tokens; the regex word count of a
force-split chunk can exceed `max_words`. -/
theorem chunk_text_word_bound (text : List Char) (max_words : ℤ)
    (hmw : 1 ≤ max_words) :
    ∀ c ∈ chunk_text text max_words,
      (count_words c.text : ℤ) ≤ max_words ∨
      ((splitWS c.text).length : ℤ) ≤ max_words := by
  rw [chunk_text]
  have h0 : GoodAcc max_words
      { chunks := [], chunk_number := 0, current_chunk := [],
        current_word_count := 0, chunk_start := 0 } := by
    refine ⟨by simp, rfl, by show ((0 : ℕ) : ℤ) ≤ max_words; omega⟩
  have hst := foldl_good (normalize_whitespace text) max_words hmw
    (find_sentence_boundaries (normalize_whitespace text)) _ h0
  obtain ⟨hchunks, hcnt, hbound⟩ := hst
  dsimp only
  split
  · intro c hc
    rcases List.mem_append.mp hc with hc | hc
    · exact hchunks c hc
    · rw [List.mem_singleton] at hc
      subst hc
      left
      dsimp only
      rw [count_words_joinSp, ← hcnt]
      omega
  · exact fun c hc => hchunks c hc

/-- C3 witness: a concrete instance of `chunk_text_word_bound`. -/
theorem chunk_text_word_bound_witness :
    (count_words ['h', 'i', '.'] : ℤ) ≤ 1 ∨
    ((splitWS ['h', 'i', '.']).length : ℤ) ≤ 1 :=
  chunk_text_word_bound "hi.".toList 1 (by norm_num)
    ⟨['h', 'i', '.'], 0, 3, 0, true⟩ (by decide)

/-- C3: the claim as stated is false.  `chunk_text "a-b" 1` force-splits
the single sentence into one chunk whose whitespace token count is 1, but
`count_words` (the regex `\b\w+\b`) counts 2 words in `"a-b"`, exceeding
`max_words = 1`. -/
theorem chunk_text_count_words_exceeds :
    chunk_text "a-b".toList 1 = [⟨['a', '-', 'b'], 0, 3, 0, false⟩] ∧
    count_words ['a', '-', 'b'] = 2 := by
  decide

/-! ### Claim C2 about `process_text_chunks` -/

/-- C2: a chunk whose synthesis keeps failing does not yield a recorded
index and partial output — the exception propagates and aborts the whole
loop.  Here chunk "b" fails with a non-CUDA error while "a" and "c"
succeed: the result is the bare error, the audio of "a" is discarded and
"c" is never synthesized. -/
theorem process_chunks_aborts_on_failure :
    process_text_chunks
      (fun _ text => if text == "b" then .error "boom" else .ok [1])
      "cuda" ["a", "b", "c"] = .error "boom" := by
  rfl

/-- C2 (amended): the pipeline is all-or-nothing — when
`process_text_chunks` returns audio at all, it returns one buffer per
chunk; there is no partial output and no failed-index list. -/
theorem process_chunks_all_or_nothing
    (gen : String → String → Except String (List ℚ)) (device : String)
    (chunks : List String) (out : List (List ℚ))
    (h : process_text_chunks gen device chunks = .ok out) :
    out.length = chunks.length := by
  induction chunks generalizing device out with
  | nil =>
    rw [process_text_chunks] at h
    cases h
    rfl
  | cons chunk rest ih =>
    rw [process_text_chunks] at h
    cases hg : generate_with_retry gen device chunk 3 with
    | error e =>
      rw [hg] at h
      cases h
    | ok o =>
      rw [hg] at h
      match o, h with
      | none, h => cases h
      | some (wav, device1), h =>
        dsimp only at h
        cases hr : process_text_chunks gen device1 rest with
        | error e =>
          rw [hr] at h
          cases h
        | ok wavs =>
          rw [hr] at h
          cases h
          simp [ih device1 wavs hr]

/-- C2 witness: with an always-succeeding synthesizer the output has one
buffer per chunk. -/
theorem process_chunks_all_or_nothing_witness :
    ([([] : List ℚ)]).length = (["x"]).length :=
  process_chunks_all_or_nothing (fun _ _ => .ok []) "cuda" ["x"] [[]] (by rfl)

/-! ### Claims C4 and C8 about the polling loops -/

/-- C4: in the `generate_tts` polling loop a single network timeout
terminates the call — `requests.Timeout` is a subclass of
`requests.RequestException` and falls into the generic handler, which
returns an error immediately.  No consecutive-timeout counter exists on
the TTS path. -/
theorem tts_poll_single_timeout_fails :
    ttsPollLoop (fun _ => .error "") (fun _ => PollResult.timeout "request timed out")
      (fun _ => 0) 2 0 0
      = some (none, "Error checking status: request timed out") := by
  rfl

/-- C4 (amended): the consecutive-timeout tolerance lives in the
`clone_voice` polling loop: with fewer than 3 consecutive timeouts the
loop continues and increments the counter, the 3rd consecutive timeout
returns the endpoint-outage error, and a successful poll with a
non-terminal status resets the counter to zero. -/
theorem clone_poll_tolerates_timeouts (polls : ℕ → PollResult) (durs : ℕ → ℚ) :
    (∀ (fuel : ℕ) (elapsed : ℚ) (ct i : ℕ) (msg : String),
      polls i = .timeout msg → ct + 1 < 3 → elapsed ≤ 120 →
      clonePollLoop polls durs (fuel + 1) elapsed ct i
        = clonePollLoop polls durs fuel (elapsed + durs i + 5) (ct + 1) (i + 1)) ∧
    (∀ (fuel : ℕ) (elapsed : ℚ) (ct i : ℕ) (msg : String),
      polls i = .timeout msg → 3 ≤ ct + 1 → elapsed ≤ 120 →
      clonePollLoop polls durs (fuel + 1) elapsed ct i
        = some (RunPodResult.error "RunPod endpoint is not responding. Please check if the endpoint is running in your RunPod console.")) ∧
    (∀ (fuel : ℕ) (elapsed : ℚ) (ct i : ℕ) (d : StatusData),
      polls i = .ok d → d.err = none → d.status ≠ some "COMPLETED" →
      d.status ≠ some "FAILED" → d.status ≠ some "CANCELLED" → elapsed ≤ 120 →
      clonePollLoop polls durs (fuel + 1) elapsed ct i
        = clonePollLoop polls durs fuel (elapsed + durs i + 5) 0 (i + 1)) := by
  refine ⟨?_, ?_, ?_⟩
  · intro fuel elapsed ct i msg hp hct h120
    rw [clonePollLoop, if_neg (not_lt.mpr h120), hp]
    dsimp only
    rw [if_neg (by omega)]
  · intro fuel elapsed ct i msg hp hct h120
    rw [clonePollLoop, if_neg (not_lt.mpr h120), hp]
    dsimp only
    rw [if_pos (by omega)]
  · intro fuel elapsed ct i d hp herr hc1 hc2 hc3
    intro h120
    rw [clonePollLoop, if_neg (not_lt.mpr h120), hp]
    dsimp only
    rw [herr]
    dsimp only
    rw [if_neg hc1, if_neg hc2, if_neg hc3]

/-- C4 witness: a concrete trace exercising all three behaviors of
`clone_poll_tolerates_timeouts` — tolerated first timeout, outage on the
third consecutive timeout, and counter reset on a successful poll. -/
theorem clone_poll_tolerates_timeouts_witness :
    (clonePollLoop
        (fun i => if i = 0 then PollResult.timeout "t"
          else PollResult.ok ⟨none, some "IN_PROGRESS", none⟩)
        (fun _ => 0) 5 0 0 0
      = clonePollLoop
        (fun i => if i = 0 then PollResult.timeout "t"
          else PollResult.ok ⟨none, some "IN_PROGRESS", none⟩)
        (fun _ => 0) 4 (0 + 0 + 5) 1 1) ∧
    (clonePollLoop
        (fun i => if i = 0 then PollResult.timeout "t"
          else PollResult.ok ⟨none, some "IN_PROGRESS", none⟩)
        (fun _ => 0) 5 0 2 0
      = some (RunPodResult.error "RunPod endpoint is not responding. Please check if the endpoint is running in your RunPod console.")) ∧
    (clonePollLoop
        (fun i => if i = 0 then PollResult.timeout "t"
          else PollResult.ok ⟨none, some "IN_PROGRESS", none⟩)
        (fun _ => 0) 4 (0 + 0 + 5) 1 1
      = clonePollLoop
        (fun i => if i = 0 then PollResult.timeout "t"
          else PollResult.ok ⟨none, some "IN_PROGRESS", none⟩)
        (fun _ => 0) 3 (0 + 0 + 5 + 0 + 5) 0 2) := by
  refine ⟨?_, ?_, ?_⟩
  · exact (clone_poll_tolerates_timeouts _ _).1 4 0 0 0 "t" rfl (by norm_num)
      (by norm_num)
  · exact (clone_poll_tolerates_timeouts _ _).2.1 4 0 2 0 "t" rfl (by norm_num)
      (by norm_num)
  · exact (clone_poll_tolerates_timeouts _ _).2.2 3 (0 + 0 + 5) 1 1
      ⟨none, some "IN_PROGRESS", none⟩ rfl rfl (by decide) (by decide) (by decide)
      (by norm_num)

/-- With only non-terminal poll responses the `generate_tts` loop keeps
going until the wall-clock check fires; each iteration advances time by at
least the 2-second sleep, so from elapsed time `e` at most
`(300 − e)/2 + 1` iterations remain. -/
lemma ttsPollLoop_times_out_aux (decode : String → Except String (List ℕ))
    (polls : ℕ → PollResult) (durs : ℕ → ℚ)
    (hdur : ∀ i, 0 ≤ durs i)
    (hpolls : ∀ i, ∃ d, polls i = .ok d ∧ d.err = none ∧
      d.status ≠ some "COMPLETED" ∧ d.status ≠ some "FAILED" ∧
      d.status ≠ some "CANCELLED") :
    ∀ (fuel : ℕ) (elapsed : ℚ) (i : ℕ), (300 : ℚ) < elapsed + 2 * fuel →
      ttsPollLoop decode polls durs (fuel + 1) elapsed i
        = some (none, "TTS generation timed out") := by
  intro fuel
  induction fuel with
  | zero =>
    intro elapsed i h
    rw [ttsPollLoop, if_pos (by push_cast at h; linarith)]
  | succ f ih =>
    intro elapsed i h
    by_cases he : elapsed > 300
    · rw [ttsPollLoop, if_pos he]
    · obtain ⟨d, hp, herr, hc1, hc2, hc3⟩ := hpolls i
      rw [ttsPollLoop, if_neg he, hp]
      dsimp only
      rw [herr]
      dsimp only
      rw [if_neg hc1, if_neg hc2, if_neg hc3]
      apply ih
      have := hdur i
      push_cast at h ⊢
      linarith

/-- C8: when the backend reports a non-terminal status forever, the
`generate_tts` polling loop terminates: once elapsed wall-clock time
exceeds `max_wait_time = 300` seconds the client returns the timed-out
error.  Fuel 152 (> 300/2 iterations) always suffices. -/
theorem tts_poll_times_out (decode : String → Except String (List ℕ))
    (polls : ℕ → PollResult) (durs : ℕ → ℚ)
    (hdur : ∀ i, 0 ≤ durs i)
    (hpolls : ∀ i, ∃ d, polls i = .ok d ∧ d.err = none ∧
      d.status ≠ some "COMPLETED" ∧ d.status ≠ some "FAILED" ∧
      d.status ≠ some "CANCELLED")
    (fuel : ℕ) (hfuel : 152 ≤ fuel) :
    ttsPollLoop decode polls durs fuel 0 0
      = some (none, "TTS generation timed out") := by
  obtain ⟨f, rfl⟩ : ∃ f, fuel = f + 1 := ⟨fuel - 1, by omega⟩
  apply ttsPollLoop_times_out_aux decode polls durs hdur hpolls
  have hf : (151 : ℚ) ≤ (f : ℚ) := by
    have : (151 : ℕ) ≤ f := by omega
    exact_mod_cast this
  linarith

/-- C8 witness: a backend that answers `IN_PROGRESS` forever leads the
loop to the timed-out error. -/
theorem tts_poll_times_out_witness :
    ttsPollLoop (fun _ => .error "")
      (fun _ => PollResult.ok ⟨none, some "IN_PROGRESS", none⟩)
      (fun _ => 0) 152 0 0
      = some (none, "TTS generation timed out") :=
  tts_poll_times_out (fun _ => .error "")
    (fun _ => PollResult.ok ⟨none, some "IN_PROGRESS", none⟩) (fun _ => 0)
    (fun _ => le_refl 0)
    (fun _ => ⟨⟨none, some "IN_PROGRESS", none⟩, rfl, rfl, by decide, by decide,
      by decide⟩)
    152 (le_refl 152)

end Audiobook
